import Mathlib

/-!
# Verification of the jaju-running activity aggregation core

Shallow embedding of the concurrent multi-user activity aggregation pipeline
from `handlers.go` (package `handlers`): the week-bucketing function
`PreviousSaturday`, the aggregator `ComputeWeeklySummaries`, the fan-out
collector `FetchUsersActivity` and the composition `FetchUserHistory`,
together with proofs of the specified properties.
-/

/-- Model of Go `time.Time` at one-second granularity: `abs` is the instant in
Unix seconds (UTC) and `off` is the zone offset east of UTC in seconds (a
fixed-offset location).  Go `==` on `time.Time` compares the wall-clock
reading together with the location, which this structural equality mirrors
(the monotonic reading is stripped by `Truncate`, the only producer of the
compared values in this code). -/
structure GoTime where
  abs : Int
  off : Int
deriving DecidableEq, Repr

/-- The local calendar day number of an instant: days since the Unix epoch of
its wall-clock reading in its own location (floor division). -/
def GoTime.localDay (t : GoTime) : Int := (t.abs + t.off) / 86400

/-- Go `Time.Weekday`: day of week (Sunday = 0 … Saturday = 6) of the
wall-clock reading in the instant's own location.  Local day number 0
(1970-01-01) was a Thursday (= 4). -/
def GoTime.weekday (t : GoTime) : Int := (t.localDay + 4) % 7

/-- Go `Time.Add`: shifts the instant, keeping the location. -/
def GoTime.addSeconds (t : GoTime) (s : Int) : GoTime := ⟨t.abs + s, t.off⟩

/-- Go `Time.Truncate (24 * time.Hour)`: rounds the instant down to a multiple
of 24h since the zero time.  The zero time (Jan 1, year 1, 00:00 UTC) lies a
whole number of days before the Unix epoch, so the truncation grid is the UTC
midnights.  The location is kept. -/
def GoTime.truncateDay (t : GoTime) : GoTime := ⟨86400 * (t.abs / 86400), t.off⟩

/-- `PreviousSaturday` from handlers.go:

```go
func PreviousSaturday(d time.Time) time.Time {
    daysToGoBack := int(d.Weekday()) + 1
    if d.Weekday() == time.Saturday {
        daysToGoBack = 0
    }
    return d.Add(time.Duration(-daysToGoBack) * 24 * time.Hour).Truncate(24 * time.Hour)
}
``` -/
def PreviousSaturday (d : GoTime) : GoTime :=
  let daysToGoBack : Int := if d.weekday = 6 then 0 else d.weekday + 1
  (d.addSeconds (-daysToGoBack * (24 * 3600))).truncateDay

/-- Day number of the start of the week (the most recent day `≡ 2 mod 7`,
i.e. Saturday) for a given day number; mirrors the `daysToGoBack`
computation of `PreviousSaturday`. -/
def weekStartDay (d : Int) : Int :=
  d - (if (d + 4) % 7 = 6 then 0 else (d + 4) % 7 + 1)

theorem PreviousSaturday_off0 (x : Int) :
    PreviousSaturday ⟨x, 0⟩ = ⟨86400 * weekStartDay (x / 86400), 0⟩ := by
  simp only [PreviousSaturday, GoTime.weekday, GoTime.localDay, GoTime.addSeconds,
    GoTime.truncateDay, weekStartDay, Int.add_zero, GoTime.mk.injEq, and_true]
  split <;> omega

theorem weekStartDay_le (d : Int) : weekStartDay d ≤ d := by
  unfold weekStartDay; split <;> omega

theorem weekStartDay_gap (d : Int) : d - weekStartDay d ≤ 6 := by
  unfold weekStartDay; split <;> omega

theorem weekStartDay_mod (d : Int) : weekStartDay d % 7 = 2 := by
  unfold weekStartDay; split <;> omega

theorem weekStartDay_eq_self (d : Int) (h : (d + 4) % 7 = 6) : weekStartDay d = d := by
  unfold weekStartDay; split <;> omega

theorem weekStartDay_mono {d e : Int} (h : d ≤ e) : weekStartDay d ≤ weekStartDay e := by
  have h1 := weekStartDay_le d
  have h2 := weekStartDay_gap e
  have h3 := weekStartDay_mod d
  have h4 := weekStartDay_mod e
  omega

theorem weekStartDay_idem (d : Int) : weekStartDay (weekStartDay d) = weekStartDay d := by
  have h := weekStartDay_mod d
  exact weekStartDay_eq_self _ (by omega)

/-- Claim C2 fails on the code: with a non-UTC fixed offset (+10:00, i.e.
36000 s east), the instants 1970-01-05 02:00 local and 1970-01-05 20:00 local
fall on the same local calendar day (Monday 1970-01-05), yet
`PreviousSaturday` maps them to different results, and the result is not a
Saturday in the input's own location: `Weekday` consults the local wall-clock
reading while `Truncate(24h)` cuts on UTC day boundaries. -/
theorem PreviousSaturday_not_day_invariant :
    (GoTime.mk 316800 36000).localDay = (GoTime.mk 381600 36000).localDay ∧
    PreviousSaturday ⟨316800, 36000⟩ ≠ PreviousSaturday ⟨381600, 36000⟩ ∧
    (PreviousSaturday ⟨316800, 36000⟩).weekday ≠ 6 := by decide

/-- C2 (amended): for instants whose location is UTC (zero offset — the case
produced by the Strava API and by the repository's tests), `PreviousSaturday`
does not depend on the time of day: two instants on the same calendar day map
to the same result, and the result is the most recent Saturday (the day
itself when the input is a Saturday) truncated to midnight in the input's
own (UTC) location. -/
theorem PreviousSaturday_day_invariant (x y : GoTime) (hx : x.off = 0) (hy : y.off = 0)
    (hday : x.localDay = y.localDay) :
    PreviousSaturday x = PreviousSaturday y ∧
    (PreviousSaturday x).weekday = 6 ∧
    (PreviousSaturday x).abs % 86400 = 0 ∧
    (PreviousSaturday x).off = x.off ∧
    (PreviousSaturday x).localDay ≤ x.localDay ∧
    x.localDay - (PreviousSaturday x).localDay ≤ 6 ∧
    (x.weekday = 6 → (PreviousSaturday x).localDay = x.localDay) := by
  obtain ⟨a, _⟩ := x
  obtain ⟨b, _⟩ := y
  subst hx; subst hy
  have hd : a / 86400 = b / 86400 := by
    simpa only [GoTime.localDay, Int.add_zero] using hday
  have hw : weekStartDay (a / 86400) = weekStartDay (b / 86400) := by rw [hd]
  have hmod := weekStartDay_mod (a / 86400)
  have hle := weekStartDay_le (a / 86400)
  have hgap := weekStartDay_gap (a / 86400)
  rw [PreviousSaturday_off0, PreviousSaturday_off0]
  simp only [GoTime.weekday, GoTime.localDay, Int.add_zero]
  refine ⟨by rw [hw], ?_, ?_, trivial, ?_, ?_, ?_⟩
  · omega
  · omega
  · omega
  · omega
  · intro h
    have hself := weekStartDay_eq_self (a / 86400) h
    omega

theorem PreviousSaturday_day_invariant_witness :
    (GoTime.mk 1520251200 0).off = 0 ∧ (GoTime.mk 1520208000 0).off = 0 ∧
    (GoTime.mk 1520251200 0).localDay = (GoTime.mk 1520208000 0).localDay ∧
    (PreviousSaturday ⟨1520251200, 0⟩ = PreviousSaturday ⟨1520208000, 0⟩ ∧
      (PreviousSaturday ⟨1520251200, 0⟩).weekday = 6 ∧
      (PreviousSaturday ⟨1520251200, 0⟩).abs % 86400 = 0 ∧
      (PreviousSaturday ⟨1520251200, 0⟩).off = (GoTime.mk 1520251200 0).off ∧
      (PreviousSaturday ⟨1520251200, 0⟩).localDay ≤ (GoTime.mk 1520251200 0).localDay ∧
      (GoTime.mk 1520251200 0).localDay - (PreviousSaturday ⟨1520251200, 0⟩).localDay ≤ 6 ∧
      ((GoTime.mk 1520251200 0).weekday = 6 →
        (PreviousSaturday ⟨1520251200, 0⟩).localDay = (GoTime.mk 1520251200 0).localDay)) :=
  ⟨rfl, rfl, by decide,
    PreviousSaturday_day_invariant ⟨1520251200, 0⟩ ⟨1520208000, 0⟩ rfl rfl (by decide)⟩

/-- Claim C9 fails on the code: the instant 1970-01-06 00:00 at fixed offset
+10:00 is at (local) midnight, yet applying `PreviousSaturday` twice moves the
result a second time. -/
theorem PreviousSaturday_not_idempotent :
    ((GoTime.mk 396000 36000).abs + (GoTime.mk 396000 36000).off) % 86400 = 0 ∧
    PreviousSaturday (PreviousSaturday ⟨396000, 36000⟩) ≠ PreviousSaturday ⟨396000, 36000⟩ := by
  decide

/-- C9 (amended): for instants in UTC (zero offset) at midnight,
`PreviousSaturday` is idempotent. -/
theorem PreviousSaturday_idempotent (x : GoTime) (hoff : x.off = 0)
    (hmid : x.abs % 86400 = 0) :
    PreviousSaturday (PreviousSaturday x) = PreviousSaturday x := by
  obtain ⟨a, _⟩ := x
  subst hoff
  rw [PreviousSaturday_off0, PreviousSaturday_off0]
  have h2 : (86400 * weekStartDay (a / 86400)) / 86400 = weekStartDay (a / 86400) := by
    omega
  rw [h2, weekStartDay_idem]

theorem PreviousSaturday_idempotent_witness :
    (GoTime.mk 1520035200 0).off = 0 ∧ (GoTime.mk 1520035200 0).abs % 86400 = 0 ∧
    PreviousSaturday (PreviousSaturday ⟨1520035200, 0⟩) = PreviousSaturday ⟨1520035200, 0⟩ :=
  ⟨rfl, by decide, PreviousSaturday_idempotent ⟨1520035200, 0⟩ rfl (by decide)⟩

/-- Model of `strava.ActivitySummary`, restricted to the fields the core
reads.  `«Type»` models the go.strava `ActivityType` (a string enum);
`ElapsedTime` is a Go `int` holding seconds; `Distance` is a `float64`
holding metres, modelled with exact rational arithmetic (floating-point
rounding is outside the scope of this development). -/
structure ActivitySummary where
  «Type» : String
  StartDate : GoTime
  ElapsedTime : Int
  Distance : ℚ
deriving DecidableEq, Repr

/-- Go `strava.ActivityTypes.Run`. -/
def runType : String := "Run"

/-- Placeholder used for the (unreachable) head of an empty bucket; Go would
panic on `w[0]` there, and every bucket is proved nonempty. -/
def defaultActivity : ActivitySummary := ⟨"", ⟨0, 0⟩, 0, 0⟩

/-- Model of `WeekSummary` from handlers.go.  `Time` is a `time.Duration` in
nanoseconds; `Count` is the bucket length. -/
structure WeekSummary where
  Date : GoTime
  Count : Nat
  Time : Int
  Distance : ℚ
deriving DecidableEq, Repr

/-- The ordering used by `sort.Slice(runs, …)` in `ComputeWeeklySummaries`,
whose `less` is `runs[i].StartDate.Before(runs[j].StartDate)` (instant
comparison): the induced reflexive total preorder. -/
def startLE (a b : ActivitySummary) : Prop := a.StartDate.abs ≤ b.StartDate.abs

instance : DecidableRel startLE := fun a b =>
  inferInstanceAs (Decidable (a.StartDate.abs ≤ b.StartDate.abs))

instance : IsTotal ActivitySummary startLE :=
  ⟨fun a b => Int.le_total a.StartDate.abs b.StartDate.abs⟩

instance : IsTrans ActivitySummary startLE := ⟨fun _ _ _ => Int.le_trans⟩

/-- The bucketing loop of `ComputeWeeklySummaries` (lines 80–92 of
handlers.go): walk the sorted runs; a run whose week start equals
`curWeekStart` joins `thisWeek`, otherwise `thisWeek` is flushed to
`allWeeks` and a new bucket starts; at the end a non-nil `thisWeek` is
flushed. -/
def bucketGo (curWeekStart : GoTime) (thisWeek : List ActivitySummary)
    (allWeeks : List (List ActivitySummary)) :
    List ActivitySummary → List (List ActivitySummary)
  | [] => if thisWeek.isEmpty then allWeeks else allWeeks ++ [thisWeek]
  | r :: rest =>
    let weekStart := PreviousSaturday r.StartDate
    if curWeekStart = weekStart then
      bucketGo curWeekStart (thisWeek ++ [r]) allWeeks rest
    else
      bucketGo weekStart [r] (allWeeks ++ [thisWeek]) rest

/-- One `WeekSummary` from one bucket (lines 94–110 of handlers.go):
`Date = PreviousSaturday(w[0].StartDate)`, `Count = len(w)`, sums of
`Distance`, and `Time = time.Duration(sum of ElapsedTime) * time.Second`. -/
def summarize (w : List ActivitySummary) : WeekSummary :=
  { Date := PreviousSaturday (w.headD defaultActivity).StartDate
    Count := w.length
    Time := (w.map (·.ElapsedTime)).sum * 1000000000
    Distance := (w.map (·.Distance)).sum }

/-- `ComputeWeeklySummaries` from handlers.go: keep only run-type activities,
sort them by start date (on a fresh slice — see the memory-level model
below), bucket consecutively by week start, and summarise each bucket. -/
def ComputeWeeklySummaries (activities : List ActivitySummary) : List WeekSummary :=
  let runs := activities.filter fun act => act.«Type» == runType
  if runs.isEmpty then []
  else
    let sorted := List.insertionSort startLE runs
    let curWeekStart := PreviousSaturday (sorted.headD defaultActivity).StartDate
    (bucketGo curWeekStart [] [] sorted).map summarize

/-- C8: aggregation has no error path.  `ComputeWeeklySummaries` is a total
function into plain lists — mirroring the Go signature, which has no error
return — and the empty input (Go `nil` and empty slices both embed to `[]`)
yields the empty sequence rather than a failure. -/
theorem ComputeWeeklySummaries_total_empty : ComputeWeeklySummaries [] = [] := rfl

/-- C7: only run-type activities participate.  Dropping the non-run
activities up front changes nothing (so filtered-out activities in an early
week neither produce entries nor disturb the bucketing of later weeks), and
an input with no run-type activity at all yields the empty sequence, not a
zero-count entry. -/
theorem ComputeWeeklySummaries_run_filter (activities : List ActivitySummary) :
    ComputeWeeklySummaries activities =
      ComputeWeeklySummaries (activities.filter fun act => act.«Type» == runType) ∧
    ((∀ act ∈ activities, act.«Type» ≠ runType) → ComputeWeeklySummaries activities = []) := by
  constructor
  · simp only [ComputeWeeklySummaries, List.filter_filter, Bool.and_self]
  · intro h
    have hfil : activities.filter (fun act => act.«Type» == runType) = [] :=
      List.filter_eq_nil_iff.mpr (by simpa using h)
    simp [ComputeWeeklySummaries, hfil]

/-- A concrete input for the only-rides scenario. -/
def rideOnly : ActivitySummary := ⟨"Ride", ⟨1520064000, 0⟩, 1200, 10⟩

theorem ComputeWeeklySummaries_run_filter_witness :
    ComputeWeeklySummaries [rideOnly] = [] :=
  (ComputeWeeklySummaries_run_filter [rideOnly]).2 (by decide)

theorem set_append_singleton {α : Type} (l : List α) (a b : α) :
    (l ++ [a]).set l.length b = l ++ [b] := by
  induction l with
  | nil => rfl
  | cons x xs ih => simp [ih]

theorem getD_append_singleton {α : Type} (l : List α) (b d : α) :
    (l ++ [b]).getD l.length d = b := by
  simp [List.getD_append_right, List.getD]

/-- Memory-level model of `ComputeWeeklySummaries`, tracking slice backing
arrays to settle the frame property.  The store maps array ids (list indices)
to array contents, and `input` is the id of the caller's `activities` array.
In the Go source, `runs` starts as a nil slice and `append` to a nil slice
allocates a fresh backing array (modelled as the fresh id `st.length`); the
pointer-copying filter loop reads `activities` but writes only `runs`, and
the in-place `sort.Slice(runs, …)` then writes only that fresh array. -/
def ComputeWeeklySummariesMem (st : List (List ActivitySummary)) (input : Nat) :
    List (List ActivitySummary) × List WeekSummary :=
  let activities := st.getD input []
  let runs := activities.filter fun act => act.«Type» == runType
  if runs.isEmpty then (st, [])
  else
    let st1 := st ++ [runs]
    let runsId := st.length
    let st2 := st1.set runsId (List.insertionSort startLE runs)
    let sorted := st2.getD runsId []
    let curWeekStart := PreviousSaturday (sorted.headD defaultActivity).StartDate
    (st2, (bucketGo curWeekStart [] [] sorted).map summarize)

/-- C6: the caller's input array is untouched — after the call the store
still holds exactly the same elements in the same order at the input's id
(the sort happened on the freshly allocated `runs` array) — and the
memory-level run computes exactly the pure `ComputeWeeklySummaries` of the
input's contents. -/
theorem ComputeWeeklySummariesMem_frame (st : List (List ActivitySummary)) (input : Nat)
    (h : input < st.length) :
    (ComputeWeeklySummariesMem st input).1.getD input [] = st.getD input [] ∧
    (ComputeWeeklySummariesMem st input).2 = ComputeWeeklySummaries (st.getD input []) := by
  unfold ComputeWeeklySummariesMem ComputeWeeklySummaries
  dsimp only
  split
  · exact ⟨rfl, rfl⟩
  · simp only [set_append_singleton, getD_append_singleton]
    exact ⟨List.getD_append _ _ _ _ h, trivial⟩

theorem ComputeWeeklySummariesMem_frame_witness :
    (0 : Nat) < ([[rideOnly]] : List (List ActivitySummary)).length ∧
    ((ComputeWeeklySummariesMem [[rideOnly]] 0).1.getD 0 [] =
        ([[rideOnly]] : List (List ActivitySummary)).getD 0 [] ∧
      (ComputeWeeklySummariesMem [[rideOnly]] 0).2 =
        ComputeWeeklySummaries (([[rideOnly]] : List (List ActivitySummary)).getD 0 [])) :=
  ⟨by decide, ComputeWeeklySummariesMem_frame [[rideOnly]] 0 (by decide)⟩

/-- `User` from handlers.go. -/
structure User where
  FirstName : String
  LastName : String
  StravaToken : String
deriving DecidableEq, Repr

/-- `UserMarathonTracking` from handlers.go. -/
structure UserMarathonTracking where
  Name : String
  Weeks : List WeekSummary
deriving DecidableEq, Repr

/-- The `ActivityFetcher` interface: `FetchActivities(token)` returns the
fetched activities or an error (modelled by its message). -/
def ActivityFetcher : Type := String → Except String (List ActivitySummary)

/-- Contents of the one-slot result channel of one per-user goroutine of
`FetchUsersActivity`: the goroutine writes `fetcher.FetchActivities(u.StravaToken)`
on success and closes the channel without a value on failure.  Each goroutine
owns its private buffered channel and touches no shared state, so the
channel's content is a function of the user alone, independent of the
completion order of the concurrent fetches. -/
def fetchChannel (fetcher : ActivityFetcher) (u : User) :
    Except String (List ActivitySummary) :=
  fetcher u.StravaToken

/-- The collection loop of `FetchUsersActivity` (lines 165–172 of
handlers.go): read each channel in input order; a channel closed without a
value makes the whole call return `errors.New("Failed")`. -/
def collectChannels :
    List (Except String (List ActivitySummary)) →
      Except String (List (List ActivitySummary))
  | [] => .ok []
  | .error _ :: _ => .error "Failed"
  | .ok acts :: rest => (collectChannels rest).map (acts :: ·)

/-- `FetchUsersActivity` from handlers.go: fan out one goroutine per user,
each writing to its own capacity-1 channel, then collect in input order. -/
def FetchUsersActivity (users : List User) (fetcher : ActivityFetcher) :
    Except String (List (List ActivitySummary)) :=
  collectChannels (users.map (fetchChannel fetcher))

/-- `FetchUserHistory` from handlers.go: batch-fetch every user's activities,
then pair `users[i].FirstName` with the weekly summaries of the i-th result
(the successful batch result always has exactly one entry per user, in input
order — `FetchUsersActivity_ok_length`). -/
def FetchUserHistory (users : List User) (fetcher : ActivityFetcher) :
    Except String (List UserMarathonTracking) :=
  match FetchUsersActivity users fetcher with
  | .error e => .error e
  | .ok acts =>
    .ok (List.zipWith (fun u act => ⟨u.FirstName, ComputeWeeklySummaries act⟩) users acts)

/-- When every fetch succeeds, the batch returns, per user in input order,
exactly the fetched list. -/
theorem FetchUsersActivity_ok_map (users : List User) (fetcher : ActivityFetcher)
    (h : ∀ u ∈ users, (fetcher u.StravaToken).isOk) :
    FetchUsersActivity users fetcher =
      .ok (users.map fun u => (fetcher u.StravaToken).toOption.getD []) := by
  induction users with
  | nil => rfl
  | cons u us ih =>
    have hu := h u (by simp)
    obtain ⟨v, hv⟩ : ∃ v, fetcher u.StravaToken = .ok v := by
      cases hfu : fetcher u.StravaToken with
      | ok v => exact ⟨v, rfl⟩
      | error e => rw [hfu] at hu; simp [Except.isOk, Except.toBool] at hu
    have ihr := ih (fun w hw => h w (by simp [hw]))
    simp only [FetchUsersActivity, List.map_cons, fetchChannel] at ihr ⊢
    rw [hv]
    simp only [collectChannels, ihr, Except.map, hv, Except.toOption, Option.getD]

theorem FetchUsersActivity_ok_length (users : List User) (fetcher : ActivityFetcher)
    (result : List (List ActivitySummary))
    (h : FetchUsersActivity users fetcher = .ok result) :
    result.length = users.length := by
  induction users generalizing result with
  | nil =>
    simp only [FetchUsersActivity, List.map_nil, collectChannels] at h
    cases h; rfl
  | cons u us ih =>
    simp only [FetchUsersActivity, List.map_cons] at h
    cases hfu : fetchChannel fetcher u with
    | error e => rw [hfu] at h; simp [collectChannels] at h
    | ok v =>
      rw [hfu] at h
      simp only [collectChannels] at h
      cases hrest : collectChannels (us.map (fetchChannel fetcher)) with
      | error e => rw [hrest] at h; simp [Except.map] at h
      | ok vs =>
        rw [hrest] at h
        simp only [Except.map] at h
        cases h
        simp [ih vs hrest]

/-- Placeholder user for out-of-range `getD` reads in statements. -/
def defaultUser : User := ⟨"", "", ""⟩

theorem zipWith_self {α β : Type} (f : α → α → β) (l : List α) :
    List.zipWith f l l = l.map fun a => f a a := by
  induction l with
  | nil => rfl
  | cons x xs ih => simp [ih]

/-- C5: when every fetch succeeds, the batch result has one entry per user
and the entry at index `i` is exactly the activity list fetched for
`users[i]`.  Each goroutine writes only to its own private capacity-1
channel and the collector reads the channels in input order, so the result
is independent of the completion order of the concurrent fetches (the
schedule appears nowhere in the data flow). -/
theorem FetchUsersActivity_ordered (users : List User) (fetcher : ActivityFetcher)
    (h : ∀ u ∈ users, (fetcher u.StravaToken).isOk) :
    ∃ result, FetchUsersActivity users fetcher = .ok result ∧
      result.length = users.length ∧
      ∀ i, i < users.length →
        result.getD i [] =
          (fetcher ((users.getD i defaultUser).StravaToken)).toOption.getD [] := by
  refine ⟨users.map fun u => (fetcher u.StravaToken).toOption.getD [],
    FetchUsersActivity_ok_map users fetcher h, by simp, ?_⟩
  intro i hi
  rw [List.getD_eq_getElem?_getD, List.getElem?_map,
    List.getElem?_eq_getElem hi]
  simp [List.getD_eq_getElem?_getD, List.getElem?_eq_getElem hi]

/-- Two concrete users and a fetcher succeeding for both with distinct
activity sets, for the C5 witness. -/
def userA : User := ⟨"Alice", "A", "tok-a"⟩

def userB : User := ⟨"Bob", "B", "tok-b"⟩

/-- A run on Saturday 2018-03-03 08:00 UTC. -/
def runSat : ActivitySummary := ⟨"Run", ⟨1520064000, 0⟩, 3600, 10⟩

/-- A run on Monday 2018-03-05 08:00 UTC. -/
def runMon : ActivitySummary := ⟨"Run", ⟨1520236800, 0⟩, 1200, 10⟩

/-- A run on Saturday 2018-03-10 08:00 UTC (the following week). -/
def runNextSat : ActivitySummary := ⟨"Run", ⟨1520668800, 0⟩, 1260, 20⟩

def okFetcher : ActivityFetcher := fun tok =>
  if tok = "tok-a" then .ok [runSat] else .ok [runMon, runNextSat]

theorem FetchUsersActivity_ordered_witness :
    (∀ u ∈ [userA, userB], (okFetcher u.StravaToken).isOk) ∧
    ∃ result, FetchUsersActivity [userA, userB] okFetcher = .ok result ∧
      result.length = ([userA, userB] : List User).length ∧
      ∀ i, i < ([userA, userB] : List User).length →
        result.getD i [] =
          (okFetcher ((([userA, userB] : List User).getD i defaultUser).StravaToken)).toOption.getD
            [] :=
  ⟨by decide, FetchUsersActivity_ordered [userA, userB] okFetcher (by decide)⟩

def failingFetcher : ActivityFetcher := fun tok =>
  if tok = "tok-a" then .error "network down" else .ok [runMon]

/-- Claim C1 fails on the code: `FetchUsersActivity` does not wrap the first
observed underlying fetch error — it returns the constant
`errors.New("Failed")`, discarding the underlying error entirely.  With a
single user (so that "first observed" is unambiguous) whose fetch fails with
"network down", the batch and the composed `FetchUserHistory` fail with the
unrelated constant message "Failed". -/
theorem FetchUsersActivity_constant_error :
    FetchUsersActivity [userA] failingFetcher = .error "Failed" ∧
    FetchUserHistory [userA] failingFetcher = .error "Failed" ∧
    ("Failed" : String) ≠ "network down" := ⟨rfl, rfl, by decide⟩

/-- C1 (amended): if any user's fetch fails, the whole batch fails — with
the constant error "Failed" rather than a wrapper of the first observed
underlying error — all successful partial results are discarded, and the
composed `FetchUserHistory` produces no `UserMarathonTracking` for any
user. -/
theorem FetchUsersActivity_all_or_nothing (users : List User) (fetcher : ActivityFetcher)
    (h : ∃ u ∈ users, ∃ e, fetcher u.StravaToken = .error e) :
    FetchUsersActivity users fetcher = .error "Failed" ∧
    FetchUserHistory users fetcher = .error "Failed" := by
  have hbatch : FetchUsersActivity users fetcher = .error "Failed" := by
    induction users with
    | nil => simp at h
    | cons u us ih =>
      obtain ⟨w, hw, e, he⟩ := h
      simp only [FetchUsersActivity, List.map_cons]
      rcases List.mem_cons.mp hw with rfl | hmem
      · simp [fetchChannel, he, collectChannels]
      · cases hfu : fetchChannel fetcher u with
        | error e2 => simp [collectChannels]
        | ok v =>
          have := ih ⟨w, hmem, e, he⟩
          simp only [FetchUsersActivity] at this
          simp [collectChannels, this, Except.map]
  exact ⟨hbatch, by simp [FetchUserHistory, hbatch]⟩

theorem FetchUsersActivity_all_or_nothing_witness :
    (∃ u ∈ [userA, userB], ∃ e, failingFetcher u.StravaToken = .error e) ∧
    (FetchUsersActivity [userA, userB] failingFetcher = .error "Failed" ∧
      FetchUserHistory [userA, userB] failingFetcher = .error "Failed") :=
  ⟨⟨userA, by decide, "network down", rfl⟩,
    FetchUsersActivity_all_or_nothing [userA, userB] failingFetcher
      ⟨userA, by decide, "network down", rfl⟩⟩

/-- C10: when every fetch succeeds, `FetchUserHistory` returns exactly one
report per input user, in input order, pairing `FirstName` with the weekly
summaries of that user's fetched activities.  A user whose fetch returns an
empty list — or only activities the run filter drops — still appears, with
`Weeks = ComputeWeeklySummaries [] = []` (respectively an empty summary
list), rather than being omitted; an empty users list yields `ok []`. -/
theorem FetchUserHistory_reports (users : List User) (fetcher : ActivityFetcher)
    (h : ∀ u ∈ users, (fetcher u.StravaToken).isOk) :
    FetchUserHistory users fetcher =
      .ok (users.map fun u =>
        ⟨u.FirstName, ComputeWeeklySummaries ((fetcher u.StravaToken).toOption.getD [])⟩) ∧
    FetchUserHistory [] fetcher = .ok [] := by
  constructor
  · rw [FetchUserHistory, FetchUsersActivity_ok_map users fetcher h]
    show Except.ok
        (List.zipWith
          (fun u act => (⟨u.FirstName, ComputeWeeklySummaries act⟩ : UserMarathonTracking))
          users (users.map fun u => (fetcher u.StravaToken).toOption.getD [])) = _
    rw [List.zipWith_map_right, zipWith_self]
  · rfl

def emptyFetcher : ActivityFetcher := fun _ => .ok []

theorem FetchUserHistory_reports_witness :
    (∀ u ∈ [userA], (emptyFetcher u.StravaToken).isOk) ∧
    (FetchUserHistory [userA] emptyFetcher =
        .ok ([userA].map fun u =>
          ⟨u.FirstName,
            ComputeWeeklySummaries ((emptyFetcher u.StravaToken).toOption.getD [])⟩) ∧
      FetchUserHistory [] emptyFetcher = .ok []) :=
  ⟨by decide, FetchUserHistory_reports [userA] emptyFetcher (by decide)⟩

/-- The week-start date of an activity: `PreviousSaturday` of its start. -/
def psDate (a : ActivitySummary) : GoTime := PreviousSaturday a.StartDate

/-- The week-start date a bucket is keyed and summarised by (the week start
of its first element, as in `summarize`). -/
def dateOf (g : List ActivitySummary) : GoTime := psDate (g.headD defaultActivity)

theorem headD_mem {α : Type} (l : List α) (d : α) (h : l ≠ []) : l.headD d ∈ l := by
  cases l with
  | nil => exact absurd rfl h
  | cons x xs => exact List.mem_cons_self x xs

theorem psDate_off0 (a : ActivitySummary) (h : a.StartDate.off = 0) :
    psDate a = ⟨86400 * weekStartDay (a.StartDate.abs / 86400), 0⟩ := by
  have ht : a.StartDate = ⟨a.StartDate.abs, 0⟩ := by rw [← h]
  rw [psDate, ht, PreviousSaturday_off0]

theorem psDate_mono (a b : ActivitySummary) (ha : a.StartDate.off = 0)
    (hb : b.StartDate.off = 0) (hab : startLE a b) : (psDate a).abs ≤ (psDate b).abs := by
  rw [psDate_off0 a ha, psDate_off0 b hb]
  have hd : a.StartDate.abs / 86400 ≤ b.StartDate.abs / 86400 :=
    Int.ediv_le_ediv (by norm_num) hab
  have := weekStartDay_mono hd
  show 86400 * weekStartDay (a.StartDate.abs / 86400) ≤
    86400 * weekStartDay (b.StartDate.abs / 86400)
  omega

theorem psDate_off0_off (a : ActivitySummary) (h : a.StartDate.off = 0) :
    (psDate a).off = 0 := by rw [psDate_off0 a h]

/-- Flushing the accumulated buckets commutes with the loop. -/
theorem bucketGo_append (rs : List ActivitySummary) :
    ∀ (cur : GoTime) (tw : List ActivitySummary) (aw : List (List ActivitySummary)),
      bucketGo cur tw aw rs = aw ++ bucketGo cur tw [] rs := by
  induction rs with
  | nil =>
    intro cur tw aw
    simp only [bucketGo]
    split <;> simp
  | cons r rest ih =>
    intro cur tw aw
    simp only [bucketGo]
    split
    · exact ih cur (tw ++ [r]) aw
    · rw [ih _ _ (aw ++ [tw]), ih _ _ ([] ++ [tw])]
      simp

/-- Invariants of the bucketing loop on a list whose week-start dates are
sorted: the buckets partition the input in order, every bucket is a nonempty
run of a single week-start date, and bucket dates strictly increase. -/
theorem bucketGo_spec (rs : List ActivitySummary) :
    ∀ (cur : GoTime) (tw : List ActivitySummary),
      tw ≠ [] →
      (∀ a ∈ tw, psDate a = cur) →
      cur.off = 0 →
      (∀ a ∈ rs, (psDate a).off = 0 ∧ cur.abs ≤ (psDate a).abs) →
      List.Pairwise (fun a b => (psDate a).abs ≤ (psDate b).abs) rs →
      (bucketGo cur tw [] rs).flatten = tw ++ rs ∧
      (∀ g ∈ bucketGo cur tw [] rs, g ≠ [] ∧ ∀ a ∈ g, psDate a = dateOf g) ∧
      List.Pairwise (fun g h => (dateOf g).abs < (dateOf h).abs) (bucketGo cur tw [] rs) ∧
      (∀ g ∈ bucketGo cur tw [] rs, cur.abs ≤ (dateOf g).abs) := by
  induction rs with
  | nil =>
    intro cur tw htw hdate hoff hrs hsort
    have hne : tw.isEmpty = false := by
      cases tw with
      | nil => exact absurd rfl htw
      | cons x xs => rfl
    have hdc : dateOf tw = cur := hdate _ (headD_mem tw defaultActivity htw)
    simp only [bucketGo, hne, Bool.false_eq_true, if_false, List.nil_append]
    refine ⟨by simp, ?_, by simp, ?_⟩
    · intro g hg
      rw [List.mem_singleton] at hg
      subst hg
      exact ⟨htw, fun a ha => (hdate a ha).trans hdc.symm⟩
    · intro g hg
      rw [List.mem_singleton] at hg
      subst hg
      rw [hdc]
  | cons r rest ih =>
    intro cur tw htw hdate hoff hrs hsort
    have hstep : bucketGo cur tw [] (r :: rest) =
        if cur = psDate r then bucketGo cur (tw ++ [r]) [] rest
        else bucketGo (psDate r) [r] ([] ++ [tw]) rest := rfl
    have hsort' := (List.pairwise_cons.mp hsort).2
    have hhead := (List.pairwise_cons.mp hsort).1
    by_cases hcur : cur = psDate r
    · rw [hstep, if_pos hcur]
      have hdate' : ∀ a ∈ tw ++ [r], psDate a = cur := by
        intro a ha
        rcases List.mem_append.mp ha with h1 | h1
        · exact hdate a h1
        · rw [List.mem_singleton] at h1; subst h1; exact hcur.symm
      have hrs' : ∀ a ∈ rest, (psDate a).off = 0 ∧ cur.abs ≤ (psDate a).abs :=
        fun a ha => hrs a (List.mem_cons_of_mem r ha)
      obtain ⟨hA, hB, hC, hE⟩ := ih cur (tw ++ [r]) (by simp) hdate' hoff hrs' hsort'
      exact ⟨by rw [hA]; simp, hB, hC, hE⟩
    · rw [hstep, if_neg hcur, List.nil_append, bucketGo_append]
      have hroff : (psDate r).off = 0 := (hrs r (List.mem_cons_self r rest)).1
      have hrabs : cur.abs < (psDate r).abs := by
        rcases lt_or_eq_of_le (hrs r (List.mem_cons_self r rest)).2 with h | h
        · exact h
        · exfalso
          apply hcur
          have : cur = ⟨cur.abs, cur.off⟩ := rfl
          rw [this, h, hoff, ← hroff]
      have hdc : dateOf tw = cur := hdate _ (headD_mem tw defaultActivity htw)
      have hrs' : ∀ a ∈ rest, (psDate a).off = 0 ∧ (psDate r).abs ≤ (psDate a).abs :=
        fun a ha => ⟨(hrs a (List.mem_cons_of_mem r ha)).1, hhead a ha⟩
      obtain ⟨hA, hB, hC, hE⟩ := ih (psDate r) [r] (by simp) (by simp) hroff hrs' hsort'
      refine ⟨?_, ?_, ?_, ?_⟩
      · rw [List.flatten_append]
        rw [hA]
        simp
      · intro g hg
        rcases List.mem_append.mp hg with h1 | h1
        · rw [List.mem_singleton] at h1
          subst h1
          exact ⟨htw, fun a ha => (hdate a ha).trans hdc.symm⟩
        · exact hB g h1
      · rw [List.pairwise_append]
        refine ⟨by simp, hC, ?_⟩
        intro g hg h' hh
        rw [List.mem_singleton] at hg
        subst hg
        rw [hdc]
        exact lt_of_lt_of_le hrabs (hE h' hh)
      · intro g hg
        rcases List.mem_append.mp hg with h1 | h1
        · rw [List.mem_singleton] at h1
          subst h1
          rw [hdc]
        · exact le_trans (le_of_lt hrabs) (hE g h1)

/-- Unfolding `ComputeWeeklySummaries` to the bucketing loop when the sorted
run list is nonempty (the loop's first iteration always lands in the
equal-week branch because `curWeekStart` is the first run's own week). -/
theorem ComputeWeeklySummaries_eq_buckets (activities : List ActivitySummary)
    (h : ActivitySummary) (t : List ActivitySummary)
    (hs : List.insertionSort startLE (activities.filter fun act => act.«Type» == runType)
        = h :: t) :
    ComputeWeeklySummaries activities = (bucketGo (psDate h) [h] [] t).map summarize := by
  have hne : (activities.filter fun act => act.«Type» == runType).isEmpty = false := by
    cases hf : activities.filter fun act => act.«Type» == runType with
    | nil => rw [hf] at hs; simp at hs
    | cons x xs => rfl
  simp only [ComputeWeeklySummaries, hne, Bool.false_eq_true, if_false, hs, List.headD_cons]
  congr 1
  show (if psDate h = psDate h then bucketGo (psDate h) ([] ++ [h]) [] t
      else bucketGo (psDate h) [h] ([] ++ [[]]) t) = bucketGo (psDate h) [h] [] t
  rw [if_pos rfl]
  rfl

/-- `ComputeWeeklySummaries` on UTC-dated inputs is `summarize` mapped over a
list of buckets that partitions the run-filtered input (up to the sort
permutation), each bucket a nonempty single-week group, with strictly
increasing week dates. -/
theorem ComputeWeeklySummaries_buckets (activities : List ActivitySummary)
    (h0 : ∀ a ∈ activities, a.StartDate.off = 0) :
    ∃ bs : List (List ActivitySummary),
      ComputeWeeklySummaries activities = bs.map summarize ∧
      bs.flatten.Perm (activities.filter fun act => act.«Type» == runType) ∧
      (∀ g ∈ bs, g ≠ [] ∧ ∀ a ∈ g, psDate a = dateOf g) ∧
      List.Pairwise (fun g g' => (dateOf g).abs < (dateOf g').abs) bs := by
  cases hs : List.insertionSort startLE (activities.filter fun act => act.«Type» == runType) with
  | nil =>
    have hp := List.perm_insertionSort startLE
      (activities.filter fun act => act.«Type» == runType)
    rw [hs] at hp
    have hrnil : (activities.filter fun act => act.«Type» == runType) = [] :=
      List.length_eq_zero.mp (hp.length_eq.symm.trans rfl)
    exact ⟨[], by simp [ComputeWeeklySummaries, hrnil], by simp [hrnil], by simp, by simp⟩
  | cons hh tt =>
    have hCWS := ComputeWeeklySummaries_eq_buckets activities hh tt hs
    have hoffs : ∀ a ∈ (hh :: tt : List ActivitySummary), a.StartDate.off = 0 := by
      intro a ha
      rw [← hs] at ha
      exact h0 a (List.mem_of_mem_filter ((List.perm_insertionSort startLE _).subset ha))
    have hsorted : List.Pairwise startLE (hh :: tt) := by
      rw [← hs]; exact List.sorted_insertionSort startLE _
    have hpsort : List.Pairwise (fun a b => (psDate a).abs ≤ (psDate b).abs) (hh :: tt) :=
      hsorted.imp_of_mem fun ha hb hr => psDate_mono _ _ (hoffs _ ha) (hoffs _ hb) hr
    obtain ⟨hA, hB, hC, _⟩ := bucketGo_spec tt (psDate hh) [hh] (by simp) (by simp)
      (psDate_off0_off hh (hoffs hh (by simp)))
      (fun a ha => ⟨psDate_off0_off a (hoffs a (by simp [ha])),
        (List.pairwise_cons.mp hpsort).1 a ha⟩)
      (List.pairwise_cons.mp hpsort).2
    refine ⟨bucketGo (psDate hh) [hh] [] tt, hCWS, ?_, hB, hC⟩
    rw [hA]
    have hp : (hh :: tt : List ActivitySummary).Perm
        (activities.filter fun act => act.«Type» == runType) := by
      rw [← hs]; exact List.perm_insertionSort startLE _
    simpa using hp

/-- Within a bucket list with constant per-bucket dates and pairwise-distinct
dates, filtering the flattened list for one bucket's date recovers exactly
that bucket. -/
theorem filter_flatten_buckets (d : GoTime) :
    ∀ (bs : List (List ActivitySummary)),
      (∀ g ∈ bs, g ≠ [] ∧ ∀ a ∈ g, psDate a = dateOf g) →
      List.Pairwise (fun g g' => (dateOf g).abs < (dateOf g').abs) bs →
      ∀ g ∈ bs, d = dateOf g →
        bs.flatten.filter (fun a => psDate a == d) = g := by
  intro bs
  induction bs with
  | nil => intro _ _ g hg; cases hg
  | cons b bs' ih =>
    intro hB hD g hg hd
    have hDh := (List.pairwise_cons.mp hD).1
    have hDt := (List.pairwise_cons.mp hD).2
    have hBt : ∀ g' ∈ bs', g' ≠ [] ∧ ∀ a ∈ g', psDate a = dateOf g' :=
      fun g' hg' => hB g' (List.mem_cons_of_mem b hg')
    rw [List.flatten_cons, List.filter_append]
    rcases List.mem_cons.mp hg with rfl | hg'
    · have h1 : g.filter (fun a => psDate a == d) = g := by
        rw [List.filter_eq_self]
        intro a ha
        rw [(hB g (List.mem_cons_self g bs')).2 a ha, hd]
        exact beq_self_eq_true _
      have h2 : bs'.flatten.filter (fun a => psDate a == d) = [] := by
        rw [List.filter_eq_nil_iff]
        intro a ha
        obtain ⟨g', hg', hag'⟩ := List.mem_flatten.mp ha
        rw [(hBt g' hg').2 a hag']
        intro hbeq
        have heq : dateOf g' = d := eq_of_beq hbeq
        have hlt := hDh g' hg'
        rw [← hd, heq] at hlt
        exact lt_irrefl _ hlt
      rw [h1, h2, List.append_nil]
    · have h1 : b.filter (fun a => psDate a == d) = [] := by
        rw [List.filter_eq_nil_iff]
        intro a ha
        rw [(hB b (List.mem_cons_self b bs')).2 a ha]
        intro hbeq
        have heq : dateOf b = d := eq_of_beq hbeq
        have := hDh g hg'
        rw [← hd, heq] at this
        omega
      rw [h1, List.nil_append]
      exact ih hBt hDt g hg' hd

/-- The week summary that `ComputeWeeklySummaries` must produce for week
start `d` out of the run list `runs` (count and sums over exactly the runs
of that week). -/
def canonicalSummary (runs : List ActivitySummary) (d : GoTime) : WeekSummary :=
  { Date := d
    Count := (runs.filter fun a => psDate a == d).length
    Time := ((runs.filter fun a => psDate a == d).map (·.ElapsedTime)).sum * 1000000000
    Distance := ((runs.filter fun a => psDate a == d).map (·.Distance)).sum }

/-- Each bucket's summary is the canonical summary of its date with respect
to any permutation of the flattened buckets. -/
theorem summarize_eq_canonical (runs : List ActivitySummary)
    (bs : List (List ActivitySummary)) (hperm : bs.flatten.Perm runs)
    (hB : ∀ g ∈ bs, g ≠ [] ∧ ∀ a ∈ g, psDate a = dateOf g)
    (hD : List.Pairwise (fun g g' => (dateOf g).abs < (dateOf g').abs) bs)
    (g : List ActivitySummary) (hg : g ∈ bs) :
    summarize g = canonicalSummary runs (dateOf g) := by
  have hfil : bs.flatten.filter (fun a => psDate a == dateOf g) = g :=
    filter_flatten_buckets (dateOf g) bs hB hD g hg rfl
  have hpf := hperm.filter (fun a => psDate a == dateOf g)
  rw [hfil] at hpf
  have hlen := hpf.length_eq
  have htime := ((hpf.map (·.ElapsedTime)).sum_eq : _)
  have hdist := ((hpf.map (·.Distance)).sum_eq : _)
  unfold summarize canonicalSummary
  rw [WeekSummary.mk.injEq]
  exact ⟨rfl, hlen, by rw [htime], by rw [hdist]⟩

/-- Three runs at fixed offset +10:00: Monday 20:00, Tuesday 05:00 and
Tuesday 20:00 local time of the week of 1970-01-03.  Their week starts under
`PreviousSaturday` come out as 172800, 86400, 172800 — the UTC-day
truncation interleaves two "weeks", so sorting by start date does not make
equal week starts contiguous. -/
def tzRunA : ActivitySummary := ⟨"Run", ⟨381600, 36000⟩, 60, 1⟩

def tzRunB : ActivitySummary := ⟨"Run", ⟨414000, 36000⟩, 60, 1⟩

def tzRunC : ActivitySummary := ⟨"Run", ⟨468000, 36000⟩, 60, 1⟩

def tzActivities : List ActivitySummary := [tzRunA, tzRunB, tzRunC]

def emptyWeek : WeekSummary := ⟨⟨0, 0⟩, 0, 0, 0⟩

/-- Claim C3 fails on the code: on the non-UTC input `tzActivities` the
output of `ComputeWeeklySummaries` is neither strictly ascending in
`weekStart` nor duplicate-free (its date sequence is 172800, 86400,
172800). -/
theorem ComputeWeeklySummaries_not_sorted_nonUTC :
    ¬ List.Pairwise (fun s t => s.Date.abs < t.Date.abs)
        (ComputeWeeklySummaries tzActivities) ∧
    ¬ ((ComputeWeeklySummaries tzActivities).map WeekSummary.Date).Nodup := by decide

/-- Claim C4 fails on the code: on the non-UTC input `tzActivities` the
first emitted summary has `Count = 1`, but two of the input's run activities
have that summary's week-start date. -/
theorem ComputeWeeklySummaries_wrong_count_nonUTC :
    ((ComputeWeeklySummaries tzActivities).headD emptyWeek).Count ≠
      ((tzActivities.filter fun act => act.«Type» == runType).filter
        fun a => psDate a ==
          ((ComputeWeeklySummaries tzActivities).headD emptyWeek).Date).length ∧
    ((ComputeWeeklySummaries tzActivities).headD emptyWeek).Count = 1 ∧
    ((tzActivities.filter fun act => act.«Type» == runType).filter
      fun a => psDate a ==
        ((ComputeWeeklySummaries tzActivities).headD emptyWeek).Date).length = 2 := by
  decide

/-- C4 (amended): on inputs whose timestamps are UTC (zero offset — the case
produced by the Strava fetcher), every emitted `WeekSummary` counts exactly
the run-kind activities of the input whose computed week start equals its
`Date`, and its `Time` and `Distance` are the sums of `ElapsedTime`
(converted to a duration) and `Distance` over exactly those activities. -/
theorem ComputeWeeklySummaries_summary_spec (activities : List ActivitySummary)
    (h0 : ∀ a ∈ activities, a.StartDate.off = 0) :
    ∀ s ∈ ComputeWeeklySummaries activities,
      s.Count = ((activities.filter fun act => act.«Type» == runType).filter
          fun a => psDate a == s.Date).length ∧
      s.Time = (((activities.filter fun act => act.«Type» == runType).filter
          fun a => psDate a == s.Date).map (·.ElapsedTime)).sum * 1000000000 ∧
      s.Distance = (((activities.filter fun act => act.«Type» == runType).filter
          fun a => psDate a == s.Date).map (·.Distance)).sum := by
  obtain ⟨bs, hcws, hperm, hB, hD⟩ := ComputeWeeklySummaries_buckets activities h0
  intro s hs
  rw [hcws] at hs
  obtain ⟨g, hg, rfl⟩ := List.mem_map.mp hs
  rw [summarize_eq_canonical _ bs hperm hB hD g hg]
  exact ⟨rfl, rfl, rfl⟩

theorem ComputeWeeklySummaries_summary_spec_witness :
    (∀ a ∈ [runSat, runMon, runNextSat], a.StartDate.off = 0) ∧
    ∀ s ∈ ComputeWeeklySummaries [runSat, runMon, runNextSat],
      s.Count = ((([runSat, runMon, runNextSat] : List ActivitySummary).filter
          fun act => act.«Type» == runType).filter fun a => psDate a == s.Date).length ∧
      s.Time = (((([runSat, runMon, runNextSat] : List ActivitySummary).filter
          fun act => act.«Type» == runType).filter fun a => psDate a == s.Date).map
          (·.ElapsedTime)).sum * 1000000000 ∧
      s.Distance = (((([runSat, runMon, runNextSat] : List ActivitySummary).filter
          fun act => act.«Type» == runType).filter fun a => psDate a == s.Date).map
          (·.Distance)).sum :=
  ⟨by decide, ComputeWeeklySummaries_summary_spec [runSat, runMon, runNextSat] (by decide)⟩

def dateLT (x y : GoTime) : Prop := x.abs < y.abs

instance : IsAntisymm GoTime dateLT :=
  ⟨fun _ _ h1 h2 => absurd (h1.trans h2) (lt_irrefl _)⟩

/-- C3 (amended): on inputs whose timestamps are UTC (zero offset),
`ComputeWeeklySummaries` returns the same result for every permutation of
the input, and that result is strictly ascending in `weekStart`, has no
duplicate week starts, and has no zero-count entry. -/
theorem ComputeWeeklySummaries_perm_invariant (activities activities2 : List ActivitySummary)
    (h0 : ∀ a ∈ activities, a.StartDate.off = 0)
    (hperm : activities.Perm activities2) :
    ComputeWeeklySummaries activities = ComputeWeeklySummaries activities2 ∧
    List.Pairwise (fun s t => s.Date.abs < t.Date.abs) (ComputeWeeklySummaries activities) ∧
    ((ComputeWeeklySummaries activities).map WeekSummary.Date).Nodup ∧
    ∀ s ∈ ComputeWeeklySummaries activities, 0 < s.Count := by
  have h02 : ∀ a ∈ activities2, a.StartDate.off = 0 := fun a ha => h0 a (hperm.mem_iff.mpr ha)
  obtain ⟨bs, hcws, hp, hB, hD⟩ := ComputeWeeklySummaries_buckets activities h0
  obtain ⟨bs2, hcws2, hp2, hB2, hD2⟩ := ComputeWeeklySummaries_buckets activities2 h02
  have hrunsperm : (activities.filter fun act => act.«Type» == runType).Perm
      (activities2.filter fun act => act.«Type» == runType) := hperm.filter _
  have hDdates : List.Sorted dateLT (bs.map dateOf) := List.pairwise_map.mpr hD
  have hDdates2 : List.Sorted dateLT (bs2.map dateOf) := List.pairwise_map.mpr hD2
  have hnd : (bs.map dateOf).Nodup :=
    hDdates.imp fun h => fun heq => absurd (heq ▸ h) (lt_irrefl _)
  have hnd2 : (bs2.map dateOf).Nodup :=
    hDdates2.imp fun h => fun heq => absurd (heq ▸ h) (lt_irrefl _)
  have hmem : ∀ (bsx : List (List ActivitySummary)) (actsx : List ActivitySummary),
      (∀ g ∈ bsx, g ≠ [] ∧ ∀ a ∈ g, psDate a = dateOf g) →
      bsx.flatten.Perm (actsx.filter fun act => act.«Type» == runType) →
      ∀ x, x ∈ bsx.map dateOf ↔
        ∃ a ∈ actsx.filter fun act => act.«Type» == runType, psDate a = x := by
    intro bsx actsx hBx hpx x
    constructor
    · intro hx
      obtain ⟨g, hg, rfl⟩ := List.mem_map.mp hx
      have hne := (hBx g hg).1
      have hh : g.headD defaultActivity ∈ g := headD_mem g _ hne
      have hfl : g.headD defaultActivity ∈ bsx.flatten := List.mem_flatten.mpr ⟨g, hg, hh⟩
      exact ⟨g.headD defaultActivity, hpx.subset hfl, rfl⟩
    · rintro ⟨a, ha, rfl⟩
      have hfl : a ∈ bsx.flatten := hpx.mem_iff.mpr ha
      obtain ⟨g, hg, hag⟩ := List.mem_flatten.mp hfl
      rw [(hBx g hg).2 a hag]
      exact List.mem_map.mpr ⟨g, hg, rfl⟩
  have hsame : ∀ x, x ∈ bs.map dateOf ↔ x ∈ bs2.map dateOf := by
    intro x
    rw [hmem bs activities hB hp x, hmem bs2 activities2 hB2 hp2 x]
    constructor
    · rintro ⟨a, ha, rfl⟩; exact ⟨a, hrunsperm.subset ha, rfl⟩
    · rintro ⟨a, ha, rfl⟩; exact ⟨a, hrunsperm.symm.subset ha, rfl⟩
  have hdperm : (bs.map dateOf).Perm (bs2.map dateOf) :=
    (List.perm_ext_iff_of_nodup hnd hnd2).mpr hsame
  have hdates_eq : bs.map dateOf = bs2.map dateOf :=
    List.eq_of_perm_of_sorted hdperm hDdates hDdates2
  have hcanon : ∀ d, canonicalSummary (activities.filter fun act => act.«Type» == runType) d =
      canonicalSummary (activities2.filter fun act => act.«Type» == runType) d := by
    intro d
    have hq := hrunsperm.filter fun a => psDate a == d
    unfold canonicalSummary
    rw [WeekSummary.mk.injEq]
    exact ⟨rfl, hq.length_eq, by rw [(hq.map _).sum_eq], by rw [(hq.map _).sum_eq]⟩
  have heq1 : ComputeWeeklySummaries activities =
      (bs.map dateOf).map
        (canonicalSummary (activities.filter fun act => act.«Type» == runType)) := by
    rw [hcws, List.map_map]
    exact List.map_congr_left fun g hg => summarize_eq_canonical _ bs hp hB hD g hg
  have heq2 : ComputeWeeklySummaries activities2 =
      (bs2.map dateOf).map
        (canonicalSummary (activities2.filter fun act => act.«Type» == runType)) := by
    rw [hcws2, List.map_map]
    exact List.map_congr_left fun g hg => summarize_eq_canonical _ bs2 hp2 hB2 hD2 g hg
  refine ⟨?_, ?_, ?_, ?_⟩
  · rw [heq1, heq2, hdates_eq]
    exact List.map_congr_left fun d _ => hcanon d
  · rw [hcws]
    exact List.pairwise_map.mpr hD
  · rw [hcws, List.map_map]
    exact hnd
  · intro s hs
    rw [hcws] at hs
    obtain ⟨g, hg, rfl⟩ := List.mem_map.mp hs
    have hne := (hB g hg).1
    cases g with
    | nil => exact absurd rfl hne
    | cons x xs => simp [summarize]

theorem ComputeWeeklySummaries_perm_invariant_witness :
    (∀ a ∈ [runMon, runSat], a.StartDate.off = 0) ∧
    ([runMon, runSat] : List ActivitySummary).Perm [runSat, runMon] ∧
    (ComputeWeeklySummaries [runMon, runSat] = ComputeWeeklySummaries [runSat, runMon] ∧
      List.Pairwise (fun s t => s.Date.abs < t.Date.abs)
        (ComputeWeeklySummaries [runMon, runSat]) ∧
      ((ComputeWeeklySummaries [runMon, runSat]).map WeekSummary.Date).Nodup ∧
      ∀ s ∈ ComputeWeeklySummaries [runMon, runSat], 0 < s.Count) :=
  ⟨by decide, List.Perm.swap runSat runMon [],
    ComputeWeeklySummaries_perm_invariant [runMon, runSat] [runSat, runMon] (by decide)
      (List.Perm.swap runSat runMon [])⟩
